import Mathlib

/-
Verification of the leaf-db document store (src/src/model.js plus its
utility module). The engine stores JavaScript values in an in-memory
object keyed by document identifier, soft-deletes via a tombstone field,
and persists to a newline-delimited JSON text file.

JavaScript values are embedded as the inductive type Value below; plain
objects are insertion-ordered association lists with unique keys, which
matches JavaScript property order for the non-numeric keys the store
uses. Machine floats are restricted to integers (no claim depends on
float behaviour). The validation module (validation.js) and the
modifier/projection module (modifiers.js) are not part of the sources;
their functions are modelled from the specification and marked as such.
-/

namespace LeafDB

/-- Embedded JavaScript value: null, undefined, booleans, (integer)
numbers, strings, arrays and plain objects. Objects are
insertion-ordered association lists. -/
inductive Value where
  | null
  | undefined
  | bool (b : Bool)
  | num (n : Int)
  | str (s : String)
  | arr (vs : List Value)
  | obj (fs : List (String × Value))

/-- The in-memory table this.data: a JavaScript object mapping identifier
strings to stored documents, in insertion order. -/
abbrev Table := List (String × Value)

/-- True for the undefined value only. -/
def isUndefined : Value → Bool
  | .undefined => true
  | _ => false

/-- JavaScript truthiness: null, undefined, false, 0 and the empty string
are falsy; every object and array is truthy. -/
def truthy : Value → Bool
  | .null => false
  | .undefined => false
  | .bool b => b
  | .num n => n != 0
  | .str s => s != ""
  | .arr _ => true
  | .obj _ => true

/-- Property read on a JavaScript object represented as an association
list: the first binding wins (bindings are unique in practice). -/
def dataGet : List (String × Value) → String → Option Value
  | [], _ => none
  | (k2, v) :: t, k => if k2 = k then some v else dataGet t k

/-- Property write on a JavaScript object: an existing key keeps its
position and gets the new value, a new key is appended at the end. This
is the semantics of both assignment and object spread with an override. -/
def dataSet : List (String × Value) → String → Value → List (String × Value)
  | [], k, v => [(k, v)]
  | (k2, w) :: t, k, v => if k2 = k then (k, v) :: t else (k2, w) :: dataSet t k v

/-- JavaScript member access doc.field: undefined when the field is
absent or the value is not an object. -/
def getF (v : Value) (k : String) : Value :=
  match v with
  | .obj fs => (dataGet fs k).getD .undefined
  | _ => .undefined

/-- JavaScript spread with a single override, as in the source pattern
that copies a document and sets one field. Spreading a non-object
contributes no fields. -/
def spreadSet (v : Value) (k : String) (w : Value) : Value :=
  match v with
  | .obj fs => .obj (dataSet fs k w)
  | _ => .obj [(k, w)]

/-- Truthiness of a lookup result: a missing property is undefined,
hence falsy. -/
def truthyO : Option Value → Bool
  | none => false
  | some v => truthy v

/-- Observable used in statements: is the entry stored at key k
tombstoned? -/
def deletedAt (data : Table) (k : String) : Bool :=
  truthy (getF ((dataGet data k).getD .undefined) "$deleted")

/-- Splits a character list on a separator character, keeping empty
pieces, like the JavaScript string split. -/
def chSplitOn (sep : Char) : List Char → List (List Char)
  | [] => [[]]
  | c :: cs =>
    match chSplitOn sep cs with
    | [] => if c = sep then [[], []] else [[c]]
    | p :: ps => if c = sep then [] :: p :: ps else (c :: p) :: ps

/-- String split on a single separator character. -/
def splitOnChar (s : String) (sep : Char) : List String :=
  (chSplitOn sep s.data).map String.mk

/-- Does the first list occur as an initial segment of the second? -/
def startsWithChars : List Char → List Char → Bool
  | [], _ => true
  | _ :: _, [] => false
  | p :: ps, c :: cs => p = c && startsWithChars ps cs

/-- Index of the first occurrence of a pattern inside a character list. -/
def chFindSub (pat : List Char) : List Char → Option Nat
  | [] => if pat.isEmpty then some 0 else none
  | c :: cs =>
    if startsWithChars pat (c :: cs) then some 0
    else (chFindSub pat cs).map (· + 1)

/-- JavaScript string replace with a plain string pattern: only the
first occurrence is replaced; the string is returned unchanged when the
pattern does not occur. -/
def replaceFirstStr (s pat rep : String) : String :=
  match chFindSub pat.data s.data with
  | none => s
  | some i => String.mk (s.data.take i ++ rep.data ++ s.data.drop (i + pat.data.length))

/-- Does the string contain the given character? -/
def strContainsChar (s : String) (c : Char) : Bool :=
  s.data.any (· = c)

/-- Does the string start with the given character? -/
def strStartsWithChar (s : String) (c : Char) : Bool :=
  match s.data with
  | [] => false
  | a :: _ => a = c

/-- Lower-cases every character of a string. -/
def strLower (s : String) : String :=
  String.mk (s.data.map Char.toLower)

/-- JavaScript String.prototype.includes for plain substrings. -/
def strIncludes (s sub : String) : Bool :=
  (chFindSub sub.data s.data).isSome

/-- Reads a character list as a decimal natural number; none when empty
or containing a non-digit. -/
def charsToNat? (cs : List Char) : Option Nat :=
  if cs.isEmpty || !(cs.all Char.isDigit) then none
  else some (cs.foldl (fun n c => n * 10 + (c.toNat - 48)) 0)

mutual
/-- Deep structural equality of embedded values, as the query engine
compares them: scalars by type and value, sequences element-wise in
order, objects by key set with order irrelevant. -/
def veq : Value → Value → Bool
  | .null, .null => true
  | .undefined, .undefined => true
  | .bool a, .bool b => a = b
  | .num a, .num b => a = b
  | .str a, .str b => a = b
  | .arr a, .arr b => veqList a b
  | .obj a, .obj b => a.length = b.length && veqFields a b
  | _, _ => false
/-- Element-wise deep equality of two sequences. -/
def veqList : List Value → List Value → Bool
  | [], [] => true
  | a :: as, b :: bs => veq a b && veqList as bs
  | _, _ => false
/-- Every field of the first object occurs, deep-equal, in the second;
together with the length check this is key-set equality for objects with
unique keys. -/
def veqFields : List (String × Value) → List (String × Value) → Bool
  | [], _ => true
  | (k, v) :: rest, b =>
    (match dataGet b k with
     | some w => veq v w
     | none => false) && veqFields rest b
end

mutual
/-- Modelled from the spec: the recursive part of is_invalid_document
from the missing validation.js. True when some field name (at any
nesting depth inside nested objects, not inside sequences) contains a
dot or starts with a dollar sign, or some field value is undefined. -/
def hasInvalidEntry : Value → Bool
  | .obj fs => fieldsInvalid fs
  | _ => false
/-- Modelled from the spec: field-list traversal for hasInvalidEntry. -/
def fieldsInvalid : List (String × Value) → Bool
  | [] => false
  | (k, v) :: fs =>
    strContainsChar k '.' || strStartsWithChar k '$' || isUndefined v ||
    hasInvalidEntry v || fieldsInvalid fs
end

/-- Modelled from the spec: is_plain_object from the missing
validation.js; true exactly for plain objects. -/
def isObject : Value → Bool
  | .obj _ => true
  | _ => false

/-- Modelled from the spec: is_empty_object from the missing
validation.js; true exactly for the object with zero fields. -/
def isEmptyObject : Value → Bool
  | .obj [] => true
  | _ => false

/-- Modelled from the spec: is_invalid_document from the missing
validation.js; true when the value is not a plain object or contains an
illegal field name or an undefined value. -/
def isInvalidDoc (v : Value) : Bool :=
  match v with
  | .obj _ => hasInvalidEntry v
  | _ => true

/-- Is the key one of the reserved modifier keywords? -/
def isModifierKey (k : String) : Bool :=
  k = "$set" || k = "$add" || k = "$push"

/-- Modelled from the spec: has_modifiers from the missing
validation.js; true when the update is an object with at least one
reserved top-level modifier key. -/
def hasModifiers : Value → Bool
  | .obj fs => fs.any (fun p => isModifierKey p.1)
  | _ => false

/-- Modelled from the spec: has_mixed_modifiers from the missing
validation.js; true when the update has both a reserved modifier key and
a plain key at top level. -/
def hasMixedModifiers : Value → Bool
  | .obj fs => fs.any (fun p => isModifierKey p.1) && fs.any (fun p => !isModifierKey p.1)
  | _ => false

/-- The compound update-argument validation shared by update and
updateById in the source: rejected when not an object, when it carries a
truthy _id, when it mixes modifiers and plain fields, or when, having no
modifiers, it is itself an invalid document. -/
def invalidUpdate (update : Value) : Bool :=
  !isObject update || truthy (getF update "_id") ||
  hasMixedModifiers update || (!hasModifiers update && isInvalidDoc update)

/-- Modelled from the spec: objectProject from the missing modifiers.js.
With no projection the document is returned unchanged; with a field list
a new object holding only the named top-level fields is returned,
requested fields absent from the document being silently omitted (so in
particular a field named in no projection, such as the tombstone marker,
does not survive projection). Projecting a non-object, such as the
undefined result of a failed lookup, returns it unchanged. -/
def objectProject (doc : Value) (projection : Option (List String)) : Value :=
  match projection with
  | none => doc
  | some fields =>
    match doc with
    | .obj fs => .obj (fields.filterMap (fun k => (dataGet fs k).map (fun v => (k, v))))
    | v => v

/-- Modelled from the spec: the set-modifier pass of objectModify; every
listed field is assigned, overwriting any existing value. -/
def modSet (doc : Value) (m : Value) : Value :=
  match m with
  | .obj fs => fs.foldl (fun d p => spreadSet d p.1 p.2) doc
  | _ => doc

/-- Modelled from the spec: the add-modifier pass of objectModify; a
numeric field (defaulting to zero when absent) is incremented; a
non-numeric current value or operand leaves the field unchanged. -/
def modAdd (doc : Value) (m : Value) : Value :=
  match m with
  | .obj fs =>
    fs.foldl (fun d p =>
      match getF d p.1, p.2 with
      | .num a, .num b => spreadSet d p.1 (.num (a + b))
      | .undefined, .num b => spreadSet d p.1 (.num b)
      | _, _ => d) doc
  | _ => doc

/-- Modelled from the spec: the push-modifier pass of objectModify; a
sequence field (defaulting to the empty sequence when absent) gets the
value appended; a non-sequence current value leaves the field
unchanged. -/
def modPush (doc : Value) (m : Value) : Value :=
  match m with
  | .obj fs =>
    fs.foldl (fun d p =>
      match getF d p.1 with
      | .arr xs => spreadSet d p.1 (.arr (xs ++ [p.2]))
      | .undefined => spreadSet d p.1 (.arr [p.2])
      | _ => d) doc
  | _ => doc

/-- Modelled from the spec: objectModify from the missing modifiers.js,
applying the set, add and push modifier passes in that fixed order and
never mutating its input. -/
def objectModify (doc update : Value) : Value :=
  modPush (modAdd (modSet doc (getF update "$set")) (getF update "$add")) (getF update "$push")

/-- Modelled from the spec: splits one dot-path segment so that a
trailing bracket-index form such as a[0] is an alias for the numeric
segment 0. -/
def splitBrackets (seg : String) : List String :=
  match splitOnChar seg '[' with
  | [] => [seg]
  | [s] => [s]
  | s :: rest => s :: rest.map (fun r => String.mk (r.data.takeWhile (· != ']')))

/-- Modelled from the spec: a dot-path is split on dots, with the
bracket-index alias also accepted. -/
def splitPath (p : String) : List String :=
  ((splitOnChar p '.').map splitBrackets).flatten

/-- Modelled from the spec: one step of path resolution; an object is
indexed by field name, a sequence by numeric index, and any mismatch or
out-of-range index yields undefined (resolution failure). -/
def resolveSeg (v : Value) (seg : String) : Value :=
  match v with
  | .obj fs => (dataGet fs seg).getD .undefined
  | .arr vs =>
    match charsToNat? seg.data with
    | some n => (vs.get? n).getD .undefined
    | none => .undefined
  | _ => .undefined

/-- Modelled from the spec: resolves a dot-path against a document;
undefined signals failure. -/
def resolvePath (doc : Value) (path : String) : Value :=
  (splitPath path).foldl resolveSeg doc

/-- Lexicographic comparison of character lists. -/
def chCompare : List Char → List Char → Ordering
  | [], [] => .eq
  | [], _ :: _ => .lt
  | _ :: _, [] => .gt
  | a :: as, b :: bs => if a < b then .lt else if b < a then .gt else chCompare as bs

/-- Modelled from the spec: ordering for the comparison operators;
numbers compare with numbers and strings with strings, every other pair
is unorderable. -/
def valCompare? : Value → Value → Option Ordering
  | .num a, .num b => some (if a < b then .lt else if b < a then .gt else .eq)
  | .str a, .str b => some (chCompare a.data b.data)
  | _, _ => none

/-- Modelled from the spec: a comparison operator with a field-to-
threshold map holds when every listed field path resolves to a value
orderable against its threshold and satisfying the test. -/
def opCmpFields (doc : Value) (m : Value) (test : Ordering → Bool) : Bool :=
  match m with
  | .obj fs =>
    fs.all (fun p =>
      match valCompare? (resolvePath doc p.1) p.2 with
      | some o => test o
      | none => false)
  | _ => false

/-- Modelled from the spec: the not-operator requires every listed field
to be present and not deep-equal to the given value. -/
def opNotFields (doc : Value) (m : Value) : Bool :=
  match m with
  | .obj fs =>
    fs.all (fun p =>
      !isUndefined (resolvePath doc p.1) && !veq (resolvePath doc p.1) p.2)
  | _ => false

/-- Modelled from the spec: the string operators require every listed
field to resolve to a string containing the given substring, optionally
case-insensitively. -/
def opStringFields (doc : Value) (m : Value) (caseFold : Bool) : Bool :=
  match m with
  | .obj fs =>
    fs.all (fun p =>
      match resolvePath doc p.1, p.2 with
      | .str s, .str sub =>
        if caseFold then strIncludes (strLower s) (strLower sub)
        else strIncludes s sub
      | _, _ => false)
  | _ => false

/-- Modelled from the spec: the exists-operator takes one field path or
a sequence of field paths and requires each to resolve successfully. -/
def opExists (doc : Value) (v : Value) : Bool :=
  match v with
  | .str p => !isUndefined (resolvePath doc p)
  | .arr ps =>
    ps.all (fun q =>
      match q with
      | .str p => !isUndefined (resolvePath doc p)
      | _ => false)
  | _ => false

/-- Modelled from the spec: the has-operator requires every listed field
to resolve to a sequence containing an element deep-equal to the given
value, failing (without erroring) on non-sequences. -/
def opHasFields (doc : Value) (m : Value) : Bool :=
  match m with
  | .obj fs =>
    fs.all (fun p =>
      match resolvePath doc p.1 with
      | .arr xs => xs.any (fun x => veq x p.2)
      | _ => false)
  | _ => false

mutual
/-- Structural size of a value, used to bound query recursion depth. -/
def vsize : Value → Nat
  | .obj fs => 1 + fsize fs
  | .arr vs => 1 + lsize vs
  | _ => 1
/-- Structural size of a value list. -/
def lsize : List Value → Nat
  | [] => 0
  | v :: vs => 1 + vsize v + lsize vs
/-- Structural size of a field list. -/
def fsize : List (String × Value) → Nat
  | [] => 0
  | (_, v) :: fs => 1 + vsize v + fsize fs
end

mutual
/-- Modelled from the spec: fueled evaluator behind isQueryMatch. The
fuel strictly decreases on every call while the traversal descends one
query node or list cell per call, so any fuel beyond the structural
size of the query makes the evaluator total on it. -/
def isQueryMatchF : Nat → Value → Value → Bool
  | 0, _, _ => false
  | f + 1, doc, query =>
    match query with
    | .obj qs => queryFieldsMatchF f doc qs
    | _ => false
/-- Modelled from the spec: conjunction over the top-level query keys. -/
def queryFieldsMatchF : Nat → Value → List (String × Value) → Bool
  | 0, _, _ => false
  | _ + 1, _, [] => true
  | f + 1, doc, (k, v) :: qs => queryKeyMatchF f doc k v && queryFieldsMatchF f doc qs
/-- Modelled from the spec: one query key, either a recognised operator
or a field path compared by deep equality. An unrecognised operator key
matches nothing (no claim depends on this modelling choice). -/
def queryKeyMatchF : Nat → Value → String → Value → Bool
  | 0, _, _, _ => false
  | f + 1, doc, k, v =>
    if k = "$gt" then opCmpFields doc v (fun o => o = .gt)
    else if k = "$gte" then opCmpFields doc v (fun o => o != .lt)
    else if k = "$lt" then opCmpFields doc v (fun o => o = .lt)
    else if k = "$lte" then opCmpFields doc v (fun o => o != .gt)
    else if k = "$not" then opNotFields doc v
    else if k = "$string" then opStringFields doc v true
    else if k = "$stringStrict" then opStringFields doc v false
    else if k = "$exists" then opExists doc v
    else if k = "$has" then opHasFields doc v
    else if k = "$some" then
      match v with
      | .arr qs => someMatchF f doc qs
      | _ => false
    else if strStartsWithChar k '$' then false
    else veq (resolvePath doc k) v
/-- Modelled from the spec: the some-operator holds when at least one
sub-query matches. -/
def someMatchF : Nat → Value → List Value → Bool
  | 0, _, _ => false
  | _ + 1, _, [] => false
  | f + 1, doc, q :: qs => isQueryMatchF f doc q || someMatchF f doc qs
end

/-- Modelled from the spec: isQueryMatch from the missing validation.js.
A query object matches when every top-level key condition holds
(implicit conjunction); a non-object query matches nothing. The fuel
exceeds the structural size of the query, which bounds the recursion
depth, so the fueled evaluator never runs out on any input. -/
def isQueryMatch (doc query : Value) : Bool :=
  isQueryMatchF (vsize query + 1) doc query

mutual
/-- JavaScript string coercion, used when a value is taken as an object
property key: strings stay themselves, numbers and booleans print, an
array joins its elements with commas, an object prints as the generic
object tag. -/
def jsToString : Value → String
  | .str s => s
  | .num n => toString n
  | .bool b => cond b "true" "false"
  | .null => "null"
  | .undefined => "undefined"
  | .obj _ => "[object Object]"
  | .arr vs => String.intercalate "," (jsToStringElems vs)
/-- Array elements under JavaScript string coercion; null and undefined
elements print as empty. -/
def jsToStringElems : List Value → List String
  | [] => []
  | v :: vs =>
    (match v with
     | .null => ""
     | .undefined => ""
     | w => jsToString w) :: jsToStringElems vs
end

/-- The opening brace character, written by code point to keep literal
braces out of string literals. -/
def lbrace : Char := Char.ofNat 123

/-- The closing brace character. -/
def rbrace : Char := Char.ofNat 125

/-- One hexadecimal digit. -/
def hexDigitChar (n : Nat) : Char :=
  if n < 10 then Char.ofNat (48 + n) else Char.ofNat (87 + n)

/-- JSON string escaping of one character, as JSON.stringify performs
it: quote, backslash and the named control characters get two-character
escapes, remaining control characters a hexadecimal escape, everything
else stands for itself. -/
def escapeChar (c : Char) : String :=
  if c = '"' then "\\\""
  else if c = '\\' then "\\\\"
  else if c = '\n' then "\\n"
  else if c = '\r' then "\\r"
  else if c = '\t' then "\\t"
  else if c = Char.ofNat 8 then "\\b"
  else if c = Char.ofNat 12 then "\\f"
  else if c.toNat < 32 then
    String.mk ['\\', 'u', '0', '0', hexDigitChar (c.toNat / 16), hexDigitChar (c.toNat % 16)]
  else String.mk [c]

/-- A JSON string literal for the given string. -/
def jsonQuote (s : String) : String :=
  "\"" ++ String.join (s.data.map escapeChar) ++ "\""

mutual
/-- JSON.stringify on embedded values. Undefined only ever serialises
inside an array (as null); undefined object fields are dropped, as
JSON.stringify drops them. The store only ever serialises plain
documents. -/
def jsonStringify : Value → String
  | .null => "null"
  | .undefined => "null"
  | .bool b => cond b "true" "false"
  | .num n => toString n
  | .str s => jsonQuote s
  | .arr vs => "[" ++ String.intercalate "," (jsonStringifyList vs) ++ "]"
  | .obj fs => String.mk [lbrace] ++ String.intercalate "," (jsonStringifyFields fs) ++ String.mk [rbrace]
/-- Serialised array elements in order. -/
def jsonStringifyList : List Value → List String
  | [] => []
  | v :: vs => jsonStringify v :: jsonStringifyList vs
/-- Serialised object members in order, dropping undefined fields. -/
def jsonStringifyFields : List (String × Value) → List String
  | [] => []
  | (k, v) :: fs =>
    if isUndefined v then jsonStringifyFields fs
    else (jsonQuote k ++ ":" ++ jsonStringify v) :: jsonStringifyFields fs
end

/-- JSON whitespace. -/
def isJsonWs (c : Char) : Bool :=
  c = ' ' || c = '\n' || c = '\t' || c = '\r'

/-- Drops leading JSON whitespace. -/
def skipWs : List Char → List Char
  | [] => []
  | c :: cs => if isJsonWs c then skipWs cs else c :: cs

/-- Value of one hexadecimal digit character, if any. -/
def hexVal? (c : Char) : Option Nat :=
  if c.isDigit then some (c.toNat - 48)
  else if 'a' ≤ c && c ≤ 'f' then some (c.toNat - 87)
  else if 'A' ≤ c && c ≤ 'F' then some (c.toNat - 55)
  else none

/-- The character denoted by a single-character JSON escape, if any. -/
def escapeOf? (e : Char) : Option Char :=
  if e = '"' then some '"'
  else if e = '\\' then some '\\'
  else if e = '/' then some '/'
  else if e = 'n' then some '\n'
  else if e = 't' then some '\t'
  else if e = 'r' then some '\r'
  else if e = 'b' then some (Char.ofNat 8)
  else if e = 'f' then some (Char.ofNat 12)
  else none

/-- Parses the body of a JSON string literal after the opening quote,
returning the content and the remaining input after the closing quote.
Unescaped control characters and unterminated literals fail, as under
JSON.parse. -/
def parseStringBody : List Char → Option (List Char × List Char)
  | [] => none
  | '"' :: rest => some ([], rest)
  | '\\' :: 'u' :: h1 :: h2 :: h3 :: h4 :: rest =>
    (match hexVal? h1, hexVal? h2, hexVal? h3, hexVal? h4 with
     | some a, some b, some c, some d =>
       (parseStringBody rest).map
         (fun r => (Char.ofNat (((a * 16 + b) * 16 + c) * 16 + d) :: r.1, r.2))
     | _, _, _, _ => none)
  | '\\' :: e :: rest =>
    (escapeOf? e).bind (fun c => (parseStringBody rest).map (fun r => (c :: r.1, r.2)))
  | c :: rest =>
    if c.toNat < 32 then none
    else (parseStringBody rest).map (fun r => (c :: r.1, r.2))

/-- Parses a JSON number restricted to integers. Fractional and
exponent forms are not modelled: the embedded serialiser never emits
them, and no claim depends on float parsing. -/
def parseNumber (cs : List Char) : Option (Value × List Char) :=
  let neg := match cs with
    | '-' :: _ => true
    | _ => false
  let cs1 := if neg then cs.drop 1 else cs
  let ds := cs1.takeWhile Char.isDigit
  let rest := cs1.dropWhile Char.isDigit
  if ds.isEmpty then none
  else
    match rest with
    | '.' :: _ => none
    | 'e' :: _ => none
    | 'E' :: _ => none
    | _ =>
      let n : Nat := ds.foldl (fun a c => a * 10 + (c.toNat - 48)) 0
      some (.num (if neg then -(n : Int) else (n : Int)), rest)

/-- Adds a parsed object member in front of the members parsed after it,
with the JSON.parse duplicate-key rule: the first occurrence keeps its
position but a later occurrence supplies the value. -/
def consField (k : String) (v : Value) (fs : List (String × Value)) : List (String × Value) :=
  match dataGet fs k with
  | some w => (k, w) :: fs.filter (fun p => p.1 != k)
  | none => (k, v) :: fs

mutual
/-- Recursive-descent JSON parser on character lists, modelling
JSON.parse on the grammar the store can encounter. The fuel bounds the
recursion depth; every recursive call works on a strictly shorter
suffix of the input (the container continuation re-inserts one opening
character into a suffix at least two characters shorter), so any fuel
of at least the input length plus one is exact. -/
def parseValueF : Nat → List Char → Option (Value × List Char)
  | 0, _ => none
  | fuel + 1, cs =>
    match skipWs cs with
    | 'n' :: 'u' :: 'l' :: 'l' :: rest => some (.null, rest)
    | 't' :: 'r' :: 'u' :: 'e' :: rest => some (.bool true, rest)
    | 'f' :: 'a' :: 'l' :: 's' :: 'e' :: rest => some (.bool false, rest)
    | '"' :: rest => (parseStringBody rest).map (fun r => (.str (String.mk r.1), r.2))
    | '[' :: rest =>
      (match skipWs rest with
       | ']' :: rest2 => some (.arr [], rest2)
       | rest2 =>
         (parseValueF fuel rest2).bind (fun r =>
           match skipWs r.2 with
           | ']' :: rest4 => some (.arr [r.1], rest4)
           | ',' :: rest4 =>
             (parseValueF fuel ('[' :: rest4)).bind (fun r2 =>
               match r2.1 with
               | .arr vs => some (.arr (r.1 :: vs), r2.2)
               | _ => none)
           | _ => none))
    | c :: rest =>
      if c = lbrace then parseObjBody fuel rest
      else parseNumber (c :: rest)
    | [] => none
/-- Parses the members of a JSON object after the opening brace. -/
def parseObjBody : Nat → List Char → Option (Value × List Char)
  | 0, _ => none
  | fuel + 1, cs =>
    match skipWs cs with
    | '"' :: rest =>
      (parseStringBody rest).bind (fun rk =>
        match skipWs rk.2 with
        | ':' :: rest2 =>
          (parseValueF fuel rest2).bind (fun rv =>
            match skipWs rv.2 with
            | ',' :: rest4 =>
              (parseValueF fuel (lbrace :: rest4)).bind (fun r2 =>
                match r2.1 with
                | .obj fs => some (.obj (consField (String.mk rk.1) rv.1 fs), r2.2)
                | _ => none)
            | c :: rest4 =>
              if c = rbrace then some (.obj [(String.mk rk.1, rv.1)], rest4) else none
            | [] => none)
        | _ => none)
    | c :: rest => if c = rbrace then some (.obj [], rest) else none
    | [] => none
end

/-- JSON.parse on a whole string: one value, with only whitespace
around it. -/
def jsonParse (s : String) : Option Value :=
  match parseValueF (s.data.length + 1) (skipWs s.data) with
  | some (v, rest) => if (skipWs rest).isEmpty then some v else none
  | none => none

/-- The persist loop of model.js: every stored value without a truthy
tombstone marker contributes its serialisation, in table order. The
individual-document try-catch of the source is vacuous here because the
embedded serialiser is total. -/
def persistPayload (docs : List Value) : List String :=
  docs.foldl (fun payload doc =>
    if !truthy (getF doc "$deleted") then payload ++ [jsonStringify doc] else payload) []

/-- The persist method of model.js on a file-backed store: the live
documents are serialised one JSON document per line, newline-joined,
and the result overwrites the whole backing file (the function of the
table alone, independent of previous file contents). -/
def persist (data : Table) : String :=
  String.intercalate "\n" (persistPayload (data.map Prod.snd))

/-- The line loop of the load method of model.js. Empty lines are
skipped; each other line has its first backslash doubled (the source
calls replace with a plain-string pattern, which rewrites only the
first occurrence) and is then parsed; a parsed document without a
truthy identifier field counts as a failure. Failures abort the whole
load in strict mode and are otherwise recorded as corrupted raw lines;
successes are stored under their identifier, coerced to a property
key. -/
def loadLoop (strict : Bool) : Table → List String → List String → Table × Except String (List String)
  | data, [], corrupted => (data, .ok corrupted)
  | data, raw :: rest, corrupted =>
    if raw = "" then loadLoop strict data rest corrupted
    else
      match jsonParse (replaceFirstStr raw "\\" "\\\\") with
      | some doc =>
        if truthy (getF doc "_id") then
          loadLoop strict (dataSet data (jsToString (getF doc "_id")) doc) rest corrupted
        else if strict then (data, .error "Missing field _id")
        else loadLoop strict data rest (corrupted ++ [raw])
      | none =>
        if strict then (data, .error "Unexpected token")
        else loadLoop strict data rest (corrupted ++ [raw])

/-- The load method of model.js on a file-backed store. A missing file
is created empty and nothing is loaded; otherwise the file splits into
lines on newlines and the line loop runs over an unchanged in-memory
table (load merges into whatever is already in memory). -/
def load (data : Table) (strict : Bool) (file : Option String) : Table × Except String (List String) :=
  match file with
  | none => (data, .ok [])
  | some contents => loadLoop strict data (splitOnChar contents '\n') []

/-- The validation loop of the insert method of model.js, run before any
table mutation: each candidate must be an object and a valid document;
a candidate without a truthy identifier gets the next generated
identifier; a candidate whose identifier is already a key of the table
(tombstoned entries included, since any stored object is truthy)
rejects the whole batch. Returns the prepared documents in order. The
uids argument supplies the successive results of the external
identifier generator. -/
def insertValidate (data : Table) (uids : Nat → String) : Nat → List Value → Except String (List Value)
  | _, [] => .ok []
  | i, d :: ds =>
    if !isObject d then .error "newDoc is not an object"
    else if isInvalidDoc d then .error "newDoc is not a valid document"
    else
      let d2 := if truthy (getF d "_id") then d else spreadSet d "_id" (.str (uids i))
      let i2 := if truthy (getF d "_id") then i else i + 1
      if truthyO (dataGet data (jsToString (getF d2 "_id"))) then .error "id already exists"
      else
        match insertValidate data uids i2 ds with
        | .ok inserted => .ok (d2 :: inserted)
        | .error e => .error e

/-- The insert method of model.js, for an argument already wrapped into
an array: validate every candidate against the pre-call table, then, on
success only, store each prepared document under its identifier in
order (a duplicate identifier inside one batch is not detected by the
validation loop, so the later document overwrites the earlier one). The
source resolves with no value on success. -/
def insert (data : Table) (uids : Nat → String) (newDocs : List Value) : Table × Except String Unit :=
  match insertValidate data uids 0 newDocs with
  | .error e => (data, .error e)
  | .ok inserted =>
    (inserted.foldl (fun acc d => dataSet acc (jsToString (getF d "_id")) d) data, .ok ())

/-- The loop of the findById method of model.js: each listed identifier
must be a non-empty string (anything else rejects the call); the stored
value, or undefined when absent, is projected first, and the projected
document is kept when it is truthy and its tombstone field is falsy
(the tombstone check therefore looks at the projected document). -/
def findByIdLoop (data : Table) (projection : Option (List String)) :
    List Value → List Value → Except String (List Value)
  | [], payload => .ok payload
  | key :: rest, payload =>
    match key with
    | .str s =>
      if s = "" then .error "Invalid _id"
      else
        let doc := objectProject ((dataGet data s).getD .undefined) projection
        if truthy doc && !truthy (getF doc "$deleted") then
          findByIdLoop data projection rest (payload ++ [doc])
        else findByIdLoop data projection rest payload
    | _ => .error "Invalid _id"

/-- The findById method of model.js, for an identifier argument already
wrapped into an array. -/
def findById (data : Table) (ids : List Value) (projection : Option (List String)) :
    Except String (List Value) :=
  findByIdLoop data projection ids []

/-- The find method of model.js: a falsy or non-object query rejects;
the empty query returns every stored value projected, with no tombstone
filter on that fast path; any other query keeps the stored values whose
tombstone field is falsy and which match, each projected. -/
def find (data : Table) (query : Value) (projection : Option (List String)) :
    Except String (List Value) :=
  if !truthy query || !isObject query then .error "Invalid query"
  else if isEmptyObject query then
    .ok ((data.map Prod.snd).map (fun doc => objectProject doc projection))
  else
    .ok ((data.map Prod.snd).foldl
      (fun payload doc =>
        if !truthy (getF doc "$deleted") && isQueryMatch doc query then
          payload ++ [objectProject doc projection]
        else payload) [])

/-- The loop of the updateById method of model.js: each listed
identifier must be a non-empty string (anything else rejects the call,
leaving the mutations already applied in place); a truthy, live stored
document is replaced by the update (or, when the update carries
modifiers, by the modified document), with the identifier re-stamped
onto the stored and the returned projected document. -/
def updateByIdLoop (update : Value) (projection : Option (List String)) :
    Table → List Value → List Value → Table × Except String (List Value)
  | data, [], payload => (data, .ok payload)
  | data, key :: rest, payload =>
    match key with
    | .str s =>
      if s = "" then (data, .error "Invalid _id")
      else
        match dataGet data s with
        | some doc =>
          if truthy doc && !truthy (getF doc "$deleted") then
            let newDoc := if hasModifiers update then objectModify doc update else update
            updateByIdLoop update projection
              (dataSet data s (spreadSet newDoc "_id" (.str s)))
              rest (payload ++ [objectProject (spreadSet newDoc "_id" (.str s)) projection])
          else updateByIdLoop update projection data rest payload
        | none => updateByIdLoop update projection data rest payload
    | _ => (data, .error "Invalid _id")

/-- The updateById method of model.js, for an identifier argument
already wrapped into an array: the update argument is validated before
any mutation, then the loop runs. -/
def updateById (data : Table) (ids : List Value) (update : Value)
    (projection : Option (List String)) : Table × Except String (List Value) :=
  if invalidUpdate update then (data, .error "Invalid update")
  else updateByIdLoop update projection data ids []

/-- The loop of the update method of model.js, over a snapshot of the
table keys taken before the first mutation: a stored document whose
tombstone field is falsy and which matches the query is replaced like
in updateById, with the key re-stamped as identifier. -/
def updateLoop (query update : Value) (projection : Option (List String)) :
    Table → List String → List Value → Table × Except String (List Value)
  | data, [], payload => (data, .ok payload)
  | data, k :: ks, payload =>
    match dataGet data k with
    | some doc =>
      if !truthy (getF doc "$deleted") && isQueryMatch doc query then
        let newDoc := if hasModifiers update then objectModify doc update else update
        updateLoop query update projection
          (dataSet data k (spreadSet newDoc "_id" (.str k)))
          ks (payload ++ [objectProject (spreadSet newDoc "_id" (.str k)) projection])
      else updateLoop query update projection data ks payload
    | none => updateLoop query update projection data ks payload

/-- The update method of model.js: a non-object query or an invalid
update argument rejects before any mutation; otherwise the loop runs
over the snapshot of the current keys. -/
def update (data : Table) (query updateArg : Value) (projection : Option (List String)) :
    Table × Except String (List Value) :=
  if !isObject query then (data, .error "Invalid query")
  else if invalidUpdate updateArg then (data, .error "Invalid update")
  else updateLoop query updateArg projection data (data.map Prod.fst) []

/-- The loop of the deleteById method of model.js: each listed
identifier must be a non-empty string (anything else rejects the call,
leaving the tombstones already set in place); a truthy, live stored
document gets its tombstone field set and is counted. -/
def deleteByIdLoop : Table → List Value → Int → Table × Except String Int
  | data, [], deleted => (data, .ok deleted)
  | data, key :: rest, deleted =>
    match key with
    | .str s =>
      if s = "" then (data, .error "Invalid _id")
      else
        match dataGet data s with
        | some doc =>
          if truthy doc && !truthy (getF doc "$deleted") then
            deleteByIdLoop (dataSet data s (spreadSet doc "$deleted" (.bool true))) rest (deleted + 1)
          else deleteByIdLoop data rest deleted
        | none => deleteByIdLoop data rest deleted
    | _ => (data, .error "Invalid _id")

/-- The deleteById method of model.js, for an identifier argument
already wrapped into an array; it returns the count of newly
tombstoned documents. -/
def deleteById (data : Table) (ids : List Value) : Table × Except String Int :=
  deleteByIdLoop data ids 0

/-- The loop of the delete method of model.js, over a snapshot of the
table keys: a live stored document matching the query gets its
tombstone field set and is counted. -/
def deleteLoop (query : Value) : Table → List String → Int → Table × Except String Int
  | data, [], removed => (data, .ok removed)
  | data, k :: ks, removed =>
    match dataGet data k with
    | some doc =>
      if !truthy (getF doc "$deleted") && isQueryMatch doc query then
        deleteLoop query (dataSet data k (spreadSet doc "$deleted" (.bool true))) ks (removed + 1)
      else deleteLoop query data ks removed
    | none => deleteLoop query data ks removed

/-- The delete method of model.js: a non-object query rejects; otherwise
the loop runs over the snapshot of the current keys. -/
def delete (data : Table) (query : Value) : Table × Except String Int :=
  if !isObject query then (data, .error "Invalid query")
  else deleteLoop query data (data.map Prod.fst) 0

/-- The drop method of model.js: the table is cleared (a file-backed
store then persists the empty table). -/
def drop (_data : Table) : Table := []

/-- The key k is stored and its document carries the identifier k. -/
def Stamped (data : Table) (k : String) : Prop :=
  ∃ d, dataGet data k = some d ∧ getF d "_id" = .str k

/-- Every stored document carries an identifier field whose JavaScript
string coercion is its key. -/
def CoherentKeys (data : Table) : Prop :=
  ∀ k d, dataGet data k = some d → jsToString (getF d "_id") = k

/-- A fixed identifier generator for concrete instances. -/
def uidsDefault : Nat → String := fun _ => "uid1"

/-- A live document with identifier a. -/
def docLiveA : Value := .obj [("_id", .str "a")]

/-- A tombstoned document with identifier b. -/
def docDeadB : Value := .obj [("_id", .str "b"), ("$deleted", .bool true)]

/-- A table holding one live and one tombstoned document. -/
def dbLiveDead : Table := [("a", docLiveA), ("b", docDeadB)]

/-- A table holding a single live document. -/
def dbLiveOnly : Table := [("a", docLiveA)]

/-- A document whose field value is a single backslash character. -/
def docBackslash : Value := .obj [("_id", .str "a"), ("v", .str "\\")]

/-- A table holding only the backslash document. -/
def dbBackslash : Table := [("a", docBackslash)]

/-- A tombstoned document that also carries a name field. -/
def docDeadNamed : Value := .obj [("_id", .str "a"), ("name", .str "x"), ("$deleted", .bool true)]

/-- A table holding only the tombstoned named document. -/
def dbDeadNamed : Table := [("a", docDeadNamed)]

/-- A valid document carrying its own identifier. -/
def docWithIdA : Value := .obj [("_id", .str "a"), ("x", .num 1)]

/-- First document of the duplicate-identifier batch. -/
def docDupFirst : Value := .obj [("_id", .str "a"), ("x", .num 1)]

/-- Second document of the duplicate-identifier batch, same identifier. -/
def docDupSecond : Value := .obj [("_id", .str "a"), ("x", .num 2)]

/-- A document whose identifier field is the number five. -/
def docNumId : Value := .obj [("_id", .num 5)]

/-- A live document stored under the key k, used by the update claims. -/
def docAtK : Value := .obj [("_id", .str "k"), ("t", .num 1)]

/-- A table holding the document at key k. -/
def dbAtK : Table := [("k", docAtK)]

/-- A plain replacement update argument. -/
def updPlain : Value := .obj [("f", .num 1)]

/-- An update argument that tries to set the identifier. -/
def updSetsId : Value := .obj [("_id", .str "x")]

/-- A table holding one tombstoned document under key b. -/
def dbDeadOnly : Table := [("b", docDeadB)]

/- Theorems. Shared helper lemmas come first, then one theorem (with its
witness or counterexample where required) per claim. -/

/-- Reading back through a property write: the written key now holds the
written value, every other key is unchanged. Holds for arbitrary
association lists, duplicate keys included. -/
theorem dataGet_dataSet (l : List (String × Value)) (k k2 : String) (v : Value) :
    dataGet (dataSet l k v) k2 = if k = k2 then some v else dataGet l k2 := by
  induction l with
  | nil => rfl
  | cons p t ih =>
    obtain ⟨k3, w⟩ := p
    by_cases h3 : k3 = k
    · subst h3
      by_cases h : k3 = k2 <;> simp [dataSet, dataGet, h]
    · by_cases h2 : k3 = k2
      · subst h2
        have hne : k ≠ k3 := fun h => h3 h.symm
        simp [dataSet, dataGet, h3, ih, hne]
      · simp [dataSet, dataGet, h3, h2, ih]

/-- The overridden field of a spread reads back as the override. -/
theorem getF_spreadSet_same (v : Value) (k : String) (w : Value) :
    getF (spreadSet v k w) k = w := by
  cases v <;> simp [spreadSet, getF, dataGet, dataGet_dataSet]

/-- Any other field of a spread reads back unchanged. -/
theorem getF_spreadSet_ne (v : Value) (k k2 : String) (w : Value) (h : k ≠ k2) :
    getF (spreadSet v k w) k2 = getF v k2 := by
  cases v <;> simp [spreadSet, getF, dataGet, dataGet_dataSet, h]

/-- A conditional-push left fold is the filtered image appended to the
accumulator: the shape of every collection loop in the source. -/
theorem foldl_push_filter {α β : Type} (p : α → Bool) (f : α → β) :
    ∀ (l : List α) (acc : List β),
      l.foldl (fun a x => if p x then a ++ [f x] else a) acc = acc ++ (l.filter p).map f := by
  intro l
  induction l with
  | nil => intro acc; simp
  | cons x t ih =>
    intro acc
    by_cases h : p x <;> simp [List.foldl, h, ih, List.filter_cons]

/-- A stored key is among the key snapshot the source loops over. -/
theorem dataGet_mem_keys (l : List (String × Value)) (k : String) (d : Value)
    (h : dataGet l k = some d) : k ∈ l.map Prod.fst := by
  induction l with
  | nil => exact absurd h (by simp [dataGet])
  | cons p t ih =>
    obtain ⟨k2, w⟩ := p
    by_cases h2 : k2 = k
    · subst h2; simp
    · simp only [dataGet, if_neg h2] at h
      simp [ih h]

/-- Claim C1 (code bug exhibit): on the empty-query fast path, find
returns every stored value, the tombstoned document included, instead
of only the live ones. Concretely, a table holding one live and one
tombstoned document yields both from the empty query, and the second
result is tombstoned. -/
theorem c1_find_empty_query_returns_tombstoned :
    find dbLiveDead (.obj []) none = .ok [docLiveA, docDeadB] ∧
      truthy (getF docDeadB "$deleted") = true ∧
      find dbLiveDead (.obj [("_id", .str "b")]) none = .ok [] :=
  ⟨rfl, rfl, rfl⟩

/-- Claim C2 (counterexample): deleteById with a valid identifier
followed by a malformed one rejects the call but leaves the first
document tombstoned, so a validation failure does not leave the table
entirely unchanged. -/
theorem c2_deleteById_mutates_before_reject :
    (deleteById dbLiveOnly [.str "a", .str ""]).2 = .error "Invalid _id" ∧
      deletedAt (deleteById dbLiveOnly [.str "a", .str ""]).1 "a" = true ∧
      deletedAt dbLiveOnly "a" = false :=
  ⟨rfl, rfl, rfl⟩

/-- Claim C2 (amended): insert validates the whole batch before any
table mutation, so a rejected insert leaves the table unchanged, and
update and updateById reject an invalid update argument (and update a
non-object query) before any mutation; only a malformed identifier
inside the identifier list of updateById or deleteById is detected
per item, after earlier listed documents were already mutated. -/
theorem c2_validation_precedes_mutation :
    (∀ (data : Table) (uids : Nat → String) (docs : List Value) (e : String),
        (insert data uids docs).2 = .error e → (insert data uids docs).1 = data) ∧
    (∀ (data : Table) (ids : List Value) (u : Value) (p : Option (List String)),
        invalidUpdate u = true → updateById data ids u p = (data, .error "Invalid update")) ∧
    (∀ (data : Table) (q u : Value) (p : Option (List String)),
        isObject q = true → invalidUpdate u = true →
        update data q u p = (data, .error "Invalid update")) := by
  refine ⟨?_, ?_, ?_⟩
  · intro data uids docs e h
    unfold insert at h ⊢
    cases hv : insertValidate data uids 0 docs <;> simp [hv] at h ⊢
  · intro data ids u p h
    simp [updateById, h]
  · intro data q u p hq hu
    simp [update, hq, hu]

/-- Claim C2 (witness): the amended theorem applied to concrete calls. -/
theorem c2_validation_precedes_mutation_witness :
    (insert dbLiveOnly uidsDefault [Value.num 5]).1 = dbLiveOnly ∧
      updateById dbLiveOnly [.str "a"] updSetsId none = (dbLiveOnly, .error "Invalid update") ∧
      update dbLiveOnly (.obj []) updSetsId none = (dbLiveOnly, .error "Invalid update") :=
  ⟨c2_validation_precedes_mutation.1 dbLiveOnly uidsDefault [Value.num 5]
      "newDoc is not an object" rfl,
   c2_validation_precedes_mutation.2.1 dbLiveOnly [.str "a"] updSetsId none rfl,
   c2_validation_precedes_mutation.2.2 dbLiveOnly (.obj []) updSetsId none rfl rfl⟩

/-- Claim C3 (code bug exhibit): persisting a table whose only live
document holds a single-backslash string and loading the file back
yields an empty table and reports the whole written line as corrupted:
the load path doubles the first backslash of each line before parsing,
which turns the valid JSON written by persist into an unterminated
string literal. -/
theorem c3_persist_load_drops_backslash_doc :
    load [] false (some (persist dbBackslash)) = ([], .ok [persist dbBackslash]) ∧
      persist dbBackslash ≠ "" ∧
      deletedAt dbBackslash "a" = false :=
  ⟨rfl, by decide, rfl⟩

/-- Claim C5 (code bug exhibit): a valid batch whose identifier does not
collide is accepted and stored, but the call resolves with no payload
(unit), not with the list of inserted documents its own documentation
announces. -/
theorem c5_insert_resolves_without_payload :
    insert [] uidsDefault [docWithIdA] = ([("a", docWithIdA)], .ok ()) :=
  rfl

/-- Claim C6 (code bug exhibit): findById projects the stored value
before checking the tombstone marker, so under a projection that omits
the marker a tombstoned document is returned instead of skipped; with
no projection the same entry is correctly omitted, and the entry is
tombstoned. -/
theorem c6_findById_projection_reveals_tombstone :
    findById dbDeadNamed [.str "a"] (some ["name"]) = .ok [.obj [("name", .str "x")]] ∧
      deletedAt dbDeadNamed "a" = true ∧
      findById dbDeadNamed [.str "a"] none = .ok [] :=
  ⟨rfl, rfl, rfl⟩

/-- Claim C7: persist produces exactly the serialisations of the
non-tombstoned stored values, in table order, one JSON document per
line joined by newlines; the written string depends on the table alone,
so the previous file contents are replaced wholesale. -/
theorem c7_persist_serialises_live_documents (data : Table) :
    persist data = String.intercalate "\n"
      (((data.map Prod.snd).filter (fun d => !truthy (getF d "$deleted"))).map jsonStringify) := by
  unfold persist persistPayload
  rw [foldl_push_filter]
  simp

/-- Claim C8: deleting an already tombstoned identifier again counts
zero and leaves the table unchanged. -/
theorem c8_deleteById_tombstoned_idempotent (data : Table) (k : String) (d : Value)
    (hk : k ≠ "") (hget : dataGet data k = some d)
    (hdel : truthy (getF d "$deleted") = true) :
    deleteById data [.str k] = (data, .ok 0) := by
  simp [deleteById, deleteByIdLoop, hk, hget, hdel]

/-- Claim C8 (witness): the theorem applied to a concrete tombstoned
entry. -/
theorem c8_deleteById_tombstoned_idempotent_witness :
    deleteById dbDeadOnly [.str "b"] = (dbDeadOnly, .ok 0) :=
  c8_deleteById_tombstoned_idempotent dbDeadOnly "b" docDeadB (by decide) rfl rfl

/-- Claim C10: an insert batch may carry two valid documents with the
same fresh identifier; validation (which only checks the pre-call
table) accepts both and the mutation loop stores them in order, so the
call succeeds and the table ends up holding only the later document
under that identifier. -/
theorem c10_batch_duplicate_id_last_wins :
    insert [] uidsDefault [docDupFirst, docDupSecond] = ([("a", docDupSecond)], .ok ()) ∧
      getF docDupFirst "x" = .num 1 ∧ getF docDupSecond "x" = .num 2 :=
  ⟨rfl, rfl, rfl⟩

/-- A write that re-stamps the key as identifier makes the key
stamped. -/
theorem stamped_write_self (data : Table) (k : String) (nd : Value) :
    Stamped (dataSet data k (spreadSet nd "_id" (.str k))) k :=
  ⟨spreadSet nd "_id" (.str k), by simp [dataGet_dataSet],
    getF_spreadSet_same nd "_id" (.str k)⟩

/-- A write at a different key preserves stampedness. -/
theorem stamped_write_other (data : Table) (k k2 : String) (v : Value)
    (h : Stamped data k) (hne : k2 ≠ k) : Stamped (dataSet data k2 v) k := by
  obtain ⟨d, hget, hid⟩ := h
  exact ⟨d, by rw [dataGet_dataSet, if_neg hne]; exact hget, hid⟩

/-- Main lemma for the identifier-keyed update loop: along a loop run
that ends without rejecting, a key already stamped stays stamped, and a
key listed as a non-empty-string identifier and live in the current
table gets stamped, because the write at that key re-stamps the
identifier and later iterations preserve it. -/
theorem updateByIdLoop_stamps (u : Value) (p : Option (List String)) (k : String) :
    ∀ (ids : List Value) (data : Table) (acc : List Value),
      (Stamped data k ∨
        (Value.str k ∈ ids ∧
          ∃ d, dataGet data k = some d ∧ truthy d = true ∧
            truthy (getF d "$deleted") = false)) →
      ∀ data2 res, updateByIdLoop u p data ids acc = (data2, Except.ok res) →
        Stamped data2 k := by
  intro ids
  induction ids with
  | nil =>
    intro data acc h data2 res heq
    simp only [updateByIdLoop, Prod.mk.injEq] at heq
    rcases h with hl | hr
    · rw [← heq.1]; exact hl
    · exact absurd hr.1 (List.not_mem_nil _)
  | cons key rest ih =>
    intro data acc h data2 res heq
    cases key with
    | str s =>
      by_cases hs : s = ""
      · subst hs; simp [updateByIdLoop] at heq
      · cases hget : dataGet data s with
        | none =>
          simp only [updateByIdLoop, if_neg hs, hget] at heq
          refine ih data acc ?_ data2 res heq
          rcases h with hl | ⟨hmem, hd⟩
          · exact Or.inl hl
          · rcases List.mem_cons.mp hmem with hk | hk
            · obtain ⟨d, hgd, _, _⟩ := hd
              injection hk with hks
              rw [hks, hget] at hgd
              exact Option.noConfusion hgd
            · exact Or.inr ⟨hk, hd⟩
        | some doc =>
          cases hcnd : (truthy doc && !truthy (getF doc "$deleted")) with
          | true =>
            simp only [updateByIdLoop, if_neg hs, hget, hcnd, if_true] at heq
            refine ih _ _ ?_ data2 res heq
            by_cases hks : s = k
            · subst hks; exact Or.inl (stamped_write_self data s _)
            · rcases h with hl | ⟨hmem, hd⟩
              · exact Or.inl (stamped_write_other data k s _ hl hks)
              · rcases List.mem_cons.mp hmem with hk | hk
                · injection hk with hk2; exact absurd hk2.symm hks
                · refine Or.inr ⟨hk, ?_⟩
                  obtain ⟨d, hgd, ht, hnd⟩ := hd
                  refine ⟨d, ?_, ht, hnd⟩
                  rw [dataGet_dataSet, if_neg hks]
                  exact hgd
          | false =>
            simp only [updateByIdLoop, if_neg hs, hget, hcnd, Bool.false_eq_true,
              if_false] at heq
            refine ih data acc ?_ data2 res heq
            rcases h with hl | ⟨hmem, hd⟩
            · exact Or.inl hl
            · rcases List.mem_cons.mp hmem with hk | hk
              · obtain ⟨d, hgd, ht, hnd⟩ := hd
                injection hk with hks
                rw [hks, hget] at hgd
                cases hgd
                rw [ht, hnd] at hcnd
                simp at hcnd
              · exact Or.inr ⟨hk, hd⟩
    | null => simp [updateByIdLoop] at heq
    | undefined => simp [updateByIdLoop] at heq
    | bool b => simp [updateByIdLoop] at heq
    | num n => simp [updateByIdLoop] at heq
    | arr vs => simp [updateByIdLoop] at heq
    | obj fs => simp [updateByIdLoop] at heq

/-- Main lemma for the query-driven update loop over a key snapshot:
along a completed run, a stamped key stays stamped, and a listed key
whose current document is live and matches the query gets stamped. -/
theorem updateLoop_stamps (q u : Value) (p : Option (List String)) (k : String) (d0 : Value)
    (hlive : truthy (getF d0 "$deleted") = false) (hmatch : isQueryMatch d0 q = true) :
    ∀ (ks : List String) (data : Table) (acc : List Value),
      (Stamped data k ∨ (k ∈ ks ∧ dataGet data k = some d0)) →
      ∀ data2 res, updateLoop q u p data ks acc = (data2, Except.ok res) →
        Stamped data2 k := by
  intro ks
  induction ks with
  | nil =>
    intro data acc h data2 res heq
    simp only [updateLoop, Prod.mk.injEq] at heq
    rcases h with hl | hr
    · rw [← heq.1]; exact hl
    · exact absurd hr.1 (List.not_mem_nil _)
  | cons j rest ih =>
    intro data acc h data2 res heq
    cases hget : dataGet data j with
    | none =>
      simp only [updateLoop, hget] at heq
      refine ih data acc ?_ data2 res heq
      rcases h with hl | ⟨hmem, hd⟩
      · exact Or.inl hl
      · rcases List.mem_cons.mp hmem with hk | hk
        · rw [hk, hget] at hd
          exact Option.noConfusion hd
        · exact Or.inr ⟨hk, hd⟩
    | some doc =>
      cases hcnd : (!truthy (getF doc "$deleted") && isQueryMatch doc q) with
      | true =>
        simp only [updateLoop, hget, hcnd, if_true] at heq
        refine ih _ _ ?_ data2 res heq
        by_cases hks : j = k
        · subst hks; exact Or.inl (stamped_write_self data j _)
        · rcases h with hl | ⟨hmem, hd⟩
          · exact Or.inl (stamped_write_other data k j _ hl hks)
          · rcases List.mem_cons.mp hmem with hk | hk
            · exact absurd hk.symm hks
            · refine Or.inr ⟨hk, ?_⟩
              rw [dataGet_dataSet, if_neg hks]
              exact hd
      | false =>
        simp only [updateLoop, hget, hcnd, Bool.false_eq_true, if_false] at heq
        refine ih data acc ?_ data2 res heq
        rcases h with hl | ⟨hmem, hd⟩
        · exact Or.inl hl
        · rcases List.mem_cons.mp hmem with hk | hk
          · rw [hk, hget] at hd
            cases hd
            rw [hlive, hmatch] at hcnd
            simp at hcnd
          · exact Or.inr ⟨hk, hd⟩

/-- Claim C4: after a successful updateById listing a key whose stored
document is live, and after a successful update whose query matches a
live stored document, the document then stored under that key carries
the key as its identifier, whatever identifier the update argument
carried (a truthy identifier in the update argument is rejected before
mutation, and the stored result is re-stamped in every case). -/
theorem c4_update_restamps_id :
    (∀ (data : Table) (ids : List Value) (u : Value) (p : Option (List String))
        (data2 : Table) (res : List Value) (k : String),
        updateById data ids u p = (data2, Except.ok res) →
        Value.str k ∈ ids →
        (∃ d, dataGet data k = some d ∧ truthy d = true ∧
          truthy (getF d "$deleted") = false) →
        Stamped data2 k) ∧
    (∀ (data : Table) (q u : Value) (p : Option (List String))
        (data2 : Table) (res : List Value) (k : String) (d : Value),
        update data q u p = (data2, Except.ok res) →
        dataGet data k = some d →
        truthy (getF d "$deleted") = false →
        isQueryMatch d q = true →
        Stamped data2 k) := by
  constructor
  · intro data ids u p data2 res k heq hmem hlive
    unfold updateById at heq
    cases hinv : invalidUpdate u with
    | true => simp [hinv] at heq
    | false =>
      rw [hinv] at heq
      simp only [Bool.false_eq_true, if_false] at heq
      exact updateByIdLoop_stamps u p k ids data [] (Or.inr ⟨hmem, hlive⟩) data2 res heq
  · intro data q u p data2 res k d heq hget hlive hmatch
    unfold update at heq
    cases hq : isObject q with
    | false => simp [hq] at heq
    | true =>
      rw [hq] at heq
      cases hinv : invalidUpdate u with
      | true => simp [hinv] at heq
      | false =>
        rw [hinv] at heq
        simp only [Bool.not_true, Bool.false_eq_true, if_false] at heq
        exact updateLoop_stamps q u p k d hlive hmatch (data.map Prod.fst) data []
          (Or.inr ⟨dataGet_mem_keys data k d hget, hget⟩) data2 res heq

/-- Claim C4 (witness): the theorem applied to one concrete updateById
call and one concrete update call on a table with one live document. -/
theorem c4_update_restamps_id_witness :
    Stamped [("k", Value.obj [("f", Value.num 1), ("_id", Value.str "k")])] "k" ∧
      Stamped [("k", Value.obj [("g", Value.num 2), ("_id", Value.str "k")])] "k" :=
  ⟨c4_update_restamps_id.1 dbAtK [.str "k"] updPlain none
      [("k", Value.obj [("f", Value.num 1), ("_id", Value.str "k")])]
      [Value.obj [("f", Value.num 1), ("_id", Value.str "k")]] "k"
      rfl (List.Mem.head _) ⟨docAtK, rfl, rfl, rfl⟩,
   c4_update_restamps_id.2 dbAtK (.obj []) (.obj [("g", .num 2)]) none
      [("k", Value.obj [("g", Value.num 2), ("_id", Value.str "k")])]
      [Value.obj [("g", Value.num 2), ("_id", Value.str "k")]] "k" docAtK
      rfl rfl rfl rfl⟩

/-- Writing a pair whose stored value coerces to its key preserves key
coherence of the table. -/
theorem coherent_dataSet (data : Table) (k : String) (v : Value)
    (hc : CoherentKeys data) (hv : jsToString (getF v "_id") = k) :
    CoherentKeys (dataSet data k v) := by
  intro k2 d hget
  rw [dataGet_dataSet] at hget
  by_cases h : k = k2
  · subst h
    rw [if_pos rfl] at hget
    cases hget
    exact hv
  · rw [if_neg h] at hget
    exact hc k2 d hget

/-- The insert mutation loop preserves key coherence: every write keys
a document by the coercion of its own identifier. -/
theorem coherent_insert_foldl :
    ∀ (l : List Value) (data : Table), CoherentKeys data →
      CoherentKeys (l.foldl (fun acc d => dataSet acc (jsToString (getF d "_id")) d) data) := by
  intro l
  induction l with
  | nil => intro data h; exact h
  | cons d t ih =>
    intro data h
    exact ih _ (coherent_dataSet data _ d h rfl)

/-- The identifier-keyed update loop preserves key coherence: every
write re-stamps the key as the stored identifier. -/
theorem coherent_updateByIdLoop (u : Value) (p : Option (List String)) :
    ∀ (ids : List Value) (data : Table) (acc : List Value),
      CoherentKeys data → CoherentKeys (updateByIdLoop u p data ids acc).1 := by
  intro ids
  induction ids with
  | nil => intro data acc h; exact h
  | cons key rest ih =>
    intro data acc h
    cases key with
    | str s =>
      by_cases hs : s = ""
      · subst hs; simpa [updateByIdLoop] using h
      · cases hget : dataGet data s with
        | none =>
          simp only [updateByIdLoop, if_neg hs, hget]
          exact ih data acc h
        | some doc =>
          cases hcnd : (truthy doc && !truthy (getF doc "$deleted")) with
          | true =>
            simp only [updateByIdLoop, if_neg hs, hget, hcnd, if_true]
            refine ih _ _ (coherent_dataSet data s _ h ?_)
            rw [getF_spreadSet_same]
            rfl
          | false =>
            simp only [updateByIdLoop, if_neg hs, hget, hcnd, Bool.false_eq_true, if_false]
            exact ih data acc h
    | null => simpa [updateByIdLoop] using h
    | undefined => simpa [updateByIdLoop] using h
    | bool b => simpa [updateByIdLoop] using h
    | num n => simpa [updateByIdLoop] using h
    | arr vs => simpa [updateByIdLoop] using h
    | obj fs => simpa [updateByIdLoop] using h

/-- The query-driven update loop preserves key coherence. -/
theorem coherent_updateLoop (q u : Value) (p : Option (List String)) :
    ∀ (ks : List String) (data : Table) (acc : List Value),
      CoherentKeys data → CoherentKeys (updateLoop q u p data ks acc).1 := by
  intro ks
  induction ks with
  | nil => intro data acc h; exact h
  | cons j rest ih =>
    intro data acc h
    cases hget : dataGet data j with
    | none =>
      simp only [updateLoop, hget]
      exact ih data acc h
    | some doc =>
      cases hcnd : (!truthy (getF doc "$deleted") && isQueryMatch doc q) with
      | true =>
        simp only [updateLoop, hget, hcnd, if_true]
        refine ih _ _ (coherent_dataSet data j _ h ?_)
        rw [getF_spreadSet_same]
        rfl
      | false =>
        simp only [updateLoop, hget, hcnd, Bool.false_eq_true, if_false]
        exact ih data acc h

/-- The identifier-keyed delete loop preserves key coherence: the
tombstone write changes only the tombstone field of an already
coherent entry. -/
theorem coherent_deleteByIdLoop :
    ∀ (ids : List Value) (data : Table) (n : Int),
      CoherentKeys data → CoherentKeys (deleteByIdLoop data ids n).1 := by
  intro ids
  induction ids with
  | nil => intro data n h; exact h
  | cons key rest ih =>
    intro data n h
    cases key with
    | str s =>
      by_cases hs : s = ""
      · subst hs; simpa [deleteByIdLoop] using h
      · cases hget : dataGet data s with
        | none =>
          simp only [deleteByIdLoop, if_neg hs, hget]
          exact ih data n h
        | some doc =>
          cases hcnd : (truthy doc && !truthy (getF doc "$deleted")) with
          | true =>
            simp only [deleteByIdLoop, if_neg hs, hget, hcnd, if_true]
            refine ih _ _ (coherent_dataSet data s _ h ?_)
            rw [getF_spreadSet_ne _ _ _ _ (by decide)]
            exact h s doc hget
          | false =>
            simp only [deleteByIdLoop, if_neg hs, hget, hcnd, Bool.false_eq_true, if_false]
            exact ih data n h
    | null => simpa [deleteByIdLoop] using h
    | undefined => simpa [deleteByIdLoop] using h
    | bool b => simpa [deleteByIdLoop] using h
    | num n2 => simpa [deleteByIdLoop] using h
    | arr vs => simpa [deleteByIdLoop] using h
    | obj fs => simpa [deleteByIdLoop] using h

/-- The query-driven delete loop preserves key coherence. -/
theorem coherent_deleteLoop (q : Value) :
    ∀ (ks : List String) (data : Table) (n : Int),
      CoherentKeys data → CoherentKeys (deleteLoop q data ks n).1 := by
  intro ks
  induction ks with
  | nil => intro data n h; exact h
  | cons j rest ih =>
    intro data n h
    cases hget : dataGet data j with
    | none =>
      simp only [deleteLoop, hget]
      exact ih data n h
    | some doc =>
      cases hcnd : (!truthy (getF doc "$deleted") && isQueryMatch doc q) with
      | true =>
        simp only [deleteLoop, hget, hcnd, if_true]
        refine ih _ _ (coherent_dataSet data j _ h ?_)
        rw [getF_spreadSet_ne _ _ _ _ (by decide)]
        exact h j doc hget
      | false =>
        simp only [deleteLoop, hget, hcnd, Bool.false_eq_true, if_false]
        exact ih data n h

/-- The load loop preserves key coherence: every successfully parsed
document is stored under the coercion of its own identifier. -/
theorem coherent_loadLoop (strict : Bool) :
    ∀ (lines : List String) (data : Table) (corrupted : List String),
      CoherentKeys data → CoherentKeys (loadLoop strict data lines corrupted).1 := by
  intro lines
  induction lines with
  | nil => intro data corrupted h; exact h
  | cons raw rest ih =>
    intro data corrupted h
    by_cases hr : raw = ""
    · simp only [loadLoop, if_pos hr]
      exact ih data corrupted h
    · cases hparse : jsonParse (replaceFirstStr raw "\\" "\\\\") with
      | none =>
        cases strict with
        | true => simpa [loadLoop, hr, hparse] using h
        | false =>
          simp only [loadLoop, if_neg hr, hparse]
          exact ih data _ h
      | some doc =>
        cases hid : truthy (getF doc "_id") with
        | true =>
          simp only [loadLoop, if_neg hr, hparse, hid, if_true]
          exact ih _ _ (coherent_dataSet data _ doc h rfl)
        | false =>
          cases strict with
          | true => simpa [loadLoop, hr, hparse, hid] using h
          | false =>
            simp only [loadLoop, if_neg hr, hparse, hid, Bool.false_eq_true, if_false]
            exact ih data _ h

/-- Claim C9 (amended): every operation preserves key coherence in the
coercion-aware sense: whenever a key is present, the identifier field
of the document stored under it JS-string-coerces to that key; in
particular, whenever the identifier is a string, it equals the key. -/
theorem c9_ops_preserve_coherent_keys :
    (∀ (data : Table) (uids : Nat → String) (docs : List Value),
        CoherentKeys data → CoherentKeys (insert data uids docs).1) ∧
    (∀ (data : Table) (ids : List Value) (u : Value) (p : Option (List String)),
        CoherentKeys data → CoherentKeys (updateById data ids u p).1) ∧
    (∀ (data : Table) (q u : Value) (p : Option (List String)),
        CoherentKeys data → CoherentKeys (update data q u p).1) ∧
    (∀ (data : Table) (ids : List Value),
        CoherentKeys data → CoherentKeys (deleteById data ids).1) ∧
    (∀ (data : Table) (q : Value),
        CoherentKeys data → CoherentKeys (delete data q).1) ∧
    (∀ (data : Table) (strict : Bool) (file : Option String),
        CoherentKeys data → CoherentKeys (load data strict file).1) ∧
    (∀ (data : Table), CoherentKeys (drop data)) := by
  refine ⟨?_, ?_, ?_, ?_, ?_, ?_, ?_⟩
  · intro data uids docs h
    unfold insert
    cases hv : insertValidate data uids 0 docs with
    | error e => exact h
    | ok inserted => exact coherent_insert_foldl inserted data h
  · intro data ids u p h
    unfold updateById
    cases hinv : invalidUpdate u with
    | true => exact h
    | false => exact coherent_updateByIdLoop u p ids data [] h
  · intro data q u p h
    unfold update
    cases hq : isObject q with
    | false => exact h
    | true =>
      cases hinv : invalidUpdate u with
      | true => exact h
      | false => exact coherent_updateLoop q u p (data.map Prod.fst) data [] h
  · intro data ids h
    exact coherent_deleteByIdLoop ids data 0 h
  · intro data q h
    unfold delete
    cases hq : isObject q with
    | false => exact h
    | true => exact coherent_deleteLoop q (data.map Prod.fst) data 0 h
  · intro data strict file h
    unfold load
    cases file with
    | none => exact h
    | some contents => exact coherent_loadLoop strict (splitOnChar contents '\n') data [] h
  · intro data
    intro k d hget
    exact absurd hget (by simp [drop, dataGet])

/-- Claim C9 (counterexample): a valid document whose identifier field
is the number five is accepted by insert and stored under the string
key 5, so the stored identifier field is not equal to the key. -/
theorem c9_numeric_id_stored_under_string_key :
    insert [] uidsDefault [docNumId] = ([("5", docNumId)], .ok ()) ∧
      getF docNumId "_id" = Value.num 5 ∧ Value.num 5 ≠ Value.str "5" :=
  ⟨rfl, rfl, fun h => Value.noConfusion h⟩

/-- Claim C9 (witness): the amended theorem applied to each operation
starting from the empty, trivially coherent table. -/
theorem c9_ops_preserve_coherent_keys_witness :
    CoherentKeys (insert [] uidsDefault [docWithIdA]).1 ∧
      CoherentKeys (updateById [] [.str "a"] updPlain none).1 ∧
      CoherentKeys (update [] (.obj []) updPlain none).1 ∧
      CoherentKeys (deleteById [] [.str "a"]).1 ∧
      CoherentKeys (delete [] (.obj [])).1 ∧
      CoherentKeys (load [] false (some "x")).1 ∧
      CoherentKeys (drop []) :=
  ⟨c9_ops_preserve_coherent_keys.1 [] uidsDefault [docWithIdA] (fun _ _ h => nomatch h),
   c9_ops_preserve_coherent_keys.2.1 [] [.str "a"] updPlain none (fun _ _ h => nomatch h),
   c9_ops_preserve_coherent_keys.2.2.1 [] (.obj []) updPlain none (fun _ _ h => nomatch h),
   c9_ops_preserve_coherent_keys.2.2.2.1 [] [.str "a"] (fun _ _ h => nomatch h),
   c9_ops_preserve_coherent_keys.2.2.2.2.1 [] (.obj []) (fun _ _ h => nomatch h),
   c9_ops_preserve_coherent_keys.2.2.2.2.2.1 [] false (some "x") (fun _ _ h => nomatch h),
   c9_ops_preserve_coherent_keys.2.2.2.2.2.2 []⟩

end LeafDB
